import Mathlib

/-!
Verification of the energy analytics repository ("the-energy"): a Next.js
frontend (under `src/frontend`) backed by a FastAPI analytics service.  The
frontend code is embedded directly from the TypeScript sources; the backend
services (CSV analytics, fingerprinting, the scoped chat SQL sandbox) are not
part of the shipped sources and are modelled from the specification where a
property depends on them.  All text is modelled as `List Char`, numbers as `ℚ`,
and calendar days as epoch-day integers.
-/

namespace TheEnergy

/-! ## Shared character/string utilities -/

/-- ASCII lowercase conversion of a single character (the embedding of
JavaScript `toLowerCase` / Python `str.lower` on the ASCII range used by the
code). -/
def lowerChar (c : Char) : Char :=
  match c with
  | 'A' => 'a' | 'B' => 'b' | 'C' => 'c' | 'D' => 'd' | 'E' => 'e'
  | 'F' => 'f' | 'G' => 'g' | 'H' => 'h' | 'I' => 'i' | 'J' => 'j'
  | 'K' => 'k' | 'L' => 'l' | 'M' => 'm' | 'N' => 'n' | 'O' => 'o'
  | 'P' => 'p' | 'Q' => 'q' | 'R' => 'r' | 'S' => 's' | 'T' => 't'
  | 'U' => 'u' | 'V' => 'v' | 'W' => 'w' | 'X' => 'x' | 'Y' => 'y'
  | 'Z' => 'z'
  | _ => c

/-- Lowercase an entire character list. -/
def lowerStr (s : List Char) : List Char := s.map lowerChar

/-- The whitespace characters trimmed by `String.prototype.trim` that occur in
the data handled here. -/
def isSpaceChar (c : Char) : Bool :=
  c = ' ' ∨ c = '\t' ∨ c = '\n' ∨ c = '\r'

/-- Strip leading and trailing whitespace, embedding `trim()`. -/
def trimChars (s : List Char) : List Char :=
  ((s.dropWhile isSpaceChar).reverse.dropWhile isSpaceChar).reverse

/-- Whether `s` starts with the pattern `pat`. -/
def startsWithSeq : List Char → List Char → Bool
  | [], _ => true
  | _ :: _, [] => false
  | p :: ps, c :: cs => p = c && startsWithSeq ps cs

/-- Whether `s` contains the pattern `pat` as a contiguous subsequence,
embedding `String.prototype.includes` / SQL-text substring search. -/
def containsSeq (pat : List Char) : List Char → Bool
  | [] => startsWithSeq pat []
  | c :: rest => startsWithSeq pat (c :: rest) || containsSeq pat rest

/-! ## History page dataset deletion (src/frontend/app/analytics/history/page.tsx)

The delete button's `onDeleted` callback runs
`setHistory((prev) => prev.filter((item) => item.id !== entry.id))`. -/

/-- One row of the history table, mirroring `DatasetRecord` in
`src/frontend/types/analytics.ts`. -/
structure DatasetRecord where
  id : Nat
  original_filename : List Char
  total_kwh : ℚ
  total_cost : ℚ
  total_co2 : ℚ
  row_count : Nat
deriving DecidableEq

/-- The state update applied to the displayed history list after a successful
deletion: `prev.filter((item) => item.id !== entry.id)`. -/
def removeDeletedDataset (history : List DatasetRecord) (deletedId : Nat) :
    List DatasetRecord :=
  history.filter (fun item => decide (item.id ≠ deletedId))

/-! ## Chat page failure recovery (src/frontend/app/chat/page.tsx, submitPrompt) -/

/-- A rendered chat message; `role` is `"user"` or `"assistant"` and `text` is
the single text part the page constructs. -/
structure ChatMessage where
  id : List Char
  role : List Char
  text : List Char
deriving DecidableEq

/-- The component state touched by `submitPrompt`. -/
structure ChatPageState where
  messages : List ChatMessage
  isThinking : Bool
  pendingPrompt : Option (List Char)
  errorMessage : Option (List Char)
deriving DecidableEq

/-- The payload returned by `sendChatMessage` on success. -/
structure ChatResponse where
  id : List Char
  content : List Char
deriving DecidableEq

/-- The outcome of the awaited `sendChatMessage` call: either a response or a
thrown error whose optional payload is the `Error.message` (a thrown non-Error
carries no message, which the page replaces with the empty string). -/
inductive ChatCallOutcome where
  | ok (response : ChatResponse)
  | failed (message : Option (List Char))
deriving DecidableEq

/-- Embedding of `submitPrompt` from the chat page.  `freshUserId` and
`freshAssistantId` stand for the two `generateId()` results, `errorPrefix` for
`copy.errorPrefix`, and `copy.authRequired` for the auth-failure text.  The
returned state is the component state after the `try`/`catch`/`finally`
completes. -/
def submitPrompt (st : ChatPageState) (prompt : List Char)
    (accessToken : Option (List Char)) (freshUserId freshAssistantId : List Char)
    (errorPrefix authRequired : List Char) (outcome : ChatCallOutcome) :
    ChatPageState :=
  let trimmed := trimChars prompt
  if trimmed = [] then st
  else
    match accessToken with
    | none => { st with errorMessage := some (errorPrefix ++ authRequired) }
    | some _ =>
      let userMessage : ChatMessage := ⟨freshUserId, "user".data, trimmed⟩
      let nextMessages := st.messages ++ [userMessage]
      match outcome with
      | .ok response =>
        let assistantMessage : ChatMessage :=
          ⟨if response.id = [] then freshAssistantId else response.id,
            "assistant".data, response.content⟩
        { messages := nextMessages ++ [assistantMessage]
          isThinking := false
          pendingPrompt := none
          errorMessage := none }
      | .failed errMsg =>
        let fallback := errMsg.getD []
        let composed := errorPrefix ++ fallback
        let assistantMessage : ChatMessage :=
          ⟨freshAssistantId, "assistant".data, composed⟩
        { messages := nextMessages ++ [assistantMessage]
          isThinking := false
          pendingPrompt := none
          errorMessage := some composed }

/-! ## Claim theorems for C10 and C7 -/

/-- Claim C10: a successful dataset deletion on the history page updates the
displayed list by removing exactly the entries whose id equals the deleted
dataset's id; every other entry is preserved unchanged and in its original
relative order (the result is a sublist of the previous list, membership is
exactly the non-matching previous entries, and the multiplicity of every
non-matching entry is preserved). -/
theorem deletion_removes_exactly_matching (history : List DatasetRecord)
    (deletedId : Nat) :
    (removeDeletedDataset history deletedId).Sublist history ∧
    (∀ e : DatasetRecord,
      e ∈ removeDeletedDataset history deletedId ↔
        (e ∈ history ∧ e.id ≠ deletedId)) ∧
    (∀ e : DatasetRecord, e.id ≠ deletedId →
      (removeDeletedDataset history deletedId).countP (fun x => decide (x = e)) =
        history.countP (fun x => decide (x = e))) := by
  refine ⟨List.filter_sublist _, fun e => ?_, fun e he => ?_⟩
  · simp [removeDeletedDataset, List.mem_filter]
  · unfold removeDeletedDataset
    rw [List.countP_filter]
    apply List.countP_congr
    intro a _
    by_cases ha : a = e
    · subst ha
      simp [he]
    · simp [ha]

/-- Claim C7: when the chat request's execution fails, `submitPrompt` still
appends an assistant-role message to the conversation, clears the
pending/thinking state, and resolves to an ordinary state update (the failure
is recovered, not re-thrown): the final message list is the previous list plus
the user message and one assistant message. -/
theorem chat_failure_recovered (st : ChatPageState) (prompt : List Char)
    (token freshUserId freshAssistantId errorPrefix authRequired : List Char)
    (errMsg : Option (List Char))
    (hprompt : trimChars prompt ≠ []) :
    let st' := submitPrompt st prompt (some token) freshUserId freshAssistantId
      errorPrefix authRequired (.failed errMsg)
    st'.messages =
        st.messages ++
          [⟨freshUserId, "user".data, trimChars prompt⟩,
            ⟨freshAssistantId, "assistant".data, errorPrefix ++ errMsg.getD []⟩] ∧
      st'.isThinking = false ∧ st'.pendingPrompt = none ∧
      (st'.messages.getLast?.map ChatMessage.role) = some "assistant".data := by
  intro st'
  refine ⟨?_, ?_, ?_, ?_⟩ <;>
    simp [st', submitPrompt, hprompt, List.getLast?_concat]

/-- Witness for C7 at a concrete state and failure. -/
theorem chat_failure_recovered_witness :
    let st : ChatPageState := ⟨[], true, some "hi".data, none⟩
    let st' := submitPrompt st " hi ".data (some "tok".data) "u1".data "a1".data
      "Error: ".data "auth".data (.failed (some "boom".data))
    st'.messages =
        st.messages ++
          [⟨"u1".data, "user".data, trimChars " hi ".data⟩,
            ⟨"a1".data, "assistant".data, "Error: ".data ++ (some "boom".data).getD []⟩] ∧
      st'.isThinking = false ∧ st'.pendingPrompt = none ∧
      (st'.messages.getLast?.map ChatMessage.role) = some "assistant".data :=
  chat_failure_recovered ⟨[], true, some "hi".data, none⟩ " hi ".data "tok".data
    "u1".data "a1".data "Error: ".data "auth".data (some "boom".data) (by decide)

/-! ## Upload error classification (src/unnamed/part_003, handleUpload)

The upload component's catch-block extracts a display message from a failed
upload: JSON-looking messages are parsed and the first non-empty string among
the `detail`, `message`, `error` keys is used (falling back to the generic
toast text for unparsable or field-less payloads); any message containing
"duplicate" case-insensitively is replaced by the dedicated duplicate toast;
an empty final message falls back to the generic toast. -/

/-- The translation strings consumed by the catch-block. -/
structure UploadCopy where
  toastGenericDescription : List Char
  toastDuplicateDescription : List Char
deriving DecidableEq

/-- View of a successfully `JSON.parse`d error payload: for each of the keys
`detail`, `message`, `error`, `some s` when the key is present with string
value `s`, otherwise `none` (missing key, non-string value, or an array
payload, for which all three lookups fail). -/
structure JsonObjectView where
  detail : Option (List Char)
  message : Option (List Char)
  error : Option (List Char)
deriving DecidableEq

/-- Outcome of `JSON.parse(rawMessage)` on a message whose trimmed text starts
with `{` or `[`: either the parse throws, or it yields an object/array viewed
through the three string fields the code reads. -/
inductive JsonParseOutcome where
  | failure
  | parsed (view : JsonObjectView)
deriving DecidableEq

/-- JavaScript truthiness of an optional string field: the field is used only
when present and non-empty (`"detail" in parsed && typeof parsed.detail ===
"string" && parsed.detail`). -/
def truthyField (f : Option (List Char)) : Option (List Char) :=
  match f with
  | none => none
  | some s => if s = [] then none else some s

/-- Whether the trimmed raw message starts with `{` or `[`
(`rawMessage.trim().startsWith("{") || rawMessage.trim().startsWith("[")`). -/
def looksLikeJson (raw : List Char) : Bool :=
  match trimChars raw with
  | '{' :: _ => true
  | '[' :: _ => true
  | _ => false

/-- Case-insensitive containment of "duplicate"
(`message.toLowerCase().includes("duplicate")`). -/
def containsDuplicate (s : List Char) : Bool :=
  containsSeq "duplicate".data (lowerStr s)

/-- The error detail extracted from the failure before the duplicate/empty
checks: the value of `message` after the JSON-extraction block of
`handleUpload`. -/
def extractedUploadDetail (raw : List Char) (parse : JsonParseOutcome)
    (copy : UploadCopy) : List Char :=
  if looksLikeJson raw then
    match parse with
    | .failure => copy.toastGenericDescription
    | .parsed view =>
      (((truthyField view.detail).or (truthyField view.message)).or
          (truthyField view.error)).getD copy.toastGenericDescription
  else raw

/-- The toast description shown to the user by `handleUpload`'s catch-block. -/
def uploadToastMessage (raw : List Char) (parse : JsonParseOutcome)
    (copy : UploadCopy) : List Char :=
  let message := extractedUploadDetail raw parse copy
  let message :=
    if containsDuplicate message then copy.toastDuplicateDescription else message
  if message = [] then copy.toastGenericDescription else message

/-! ## Scoped query sandbox (modelled from the spec)

The chat endpoint `POST /api/chat` ("natural-language chat with safe SQL
retrieval", backend `api/routes.py`) is not among the shipped sources; the
Sandbox Executor is modelled from spec §4.6. -/

/-- Modelled from the spec: a stored reading row tagged with the identity of
the user who owns it (the backend `energy_readings` rows joined with their
dataset's owner). -/
structure SandboxRow where
  user_id : List Char
  reading_date : Int
  kwh : ℚ
  cost : ℚ
deriving DecidableEq

/-- Modelled from the spec (§4.6 step 1): the ephemeral, request-scoped
database is populated with only the rows whose owning identity matches the
caller. -/
def populateSandbox (store : List SandboxRow) (caller : List Char) :
    List SandboxRow :=
  store.filter (fun r => decide (r.user_id = caller))

/-- Modelled from the spec: outcome of one sandbox execution. -/
inductive SandboxOutcome where
  | rejectedStatement
  | rows (result : List SandboxRow) (truncated : Bool)
deriving DecidableEq

/-- Modelled from the spec (§4.6 step 2a): the DDL/DML verbs whose presence
anywhere in the candidate statement, case-insensitively, causes rejection. -/
def forbiddenVerbs : List (List Char) :=
  ["insert".data, "update".data, "delete".data, "drop".data, "alter".data,
    "attach".data, "pragma".data]

/-- Whether a candidate statement contains a forbidden verb anywhere in its
text, case-insensitively. -/
def containsForbiddenVerb (stmt : List Char) : Bool :=
  forbiddenVerbs.any (fun v => containsSeq v (lowerStr stmt))

/-- Modelled from the spec: the configured result-row cap (§4.6 step 2d/3). -/
def sandboxRowLimit : Nat := 50

/-- Modelled from the spec (§4.6): validate the candidate statement, and only
then run the SQL engine against the ephemeral database populated with the
caller's rows.  `engine` stands for the SQL engine evaluating the validated
read statement: it receives the ephemeral database contents and produces the
result rows.  A rejected statement is never handed to the engine, and the
persistent store is returned unchanged on every path (the ephemeral instance
is torn down after use). -/
def runChatQuery (stmt : List Char)
    (engine : List SandboxRow → List SandboxRow)
    (store : List SandboxRow) (caller : List Char) :
    SandboxOutcome × List SandboxRow :=
  if containsForbiddenVerb stmt then (.rejectedStatement, store)
  else
    let result := engine (populateSandbox store caller)
    (.rows (result.take sandboxRowLimit) (decide (sandboxRowLimit < result.length)),
      store)

/-! ## Claim theorems for C6, C2 and C1 -/

/-- Claim C6: the duplicate-dataset conflict is reported distinctly from other
failures: whenever the extracted error detail contains "duplicate"
case-insensitively the dedicated already-uploaded message is shown; any other
failure shows that error's own detail; an empty detail and an unparsable
JSON-looking detail both fall back to the generic message. -/
theorem upload_error_classification (raw : List Char) (parse : JsonParseOutcome)
    (copy : UploadCopy)
    (hgen : containsDuplicate copy.toastGenericDescription = false)
    (hdupne : copy.toastDuplicateDescription ≠ []) :
    (containsDuplicate (extractedUploadDetail raw parse copy) = true →
      uploadToastMessage raw parse copy = copy.toastDuplicateDescription) ∧
    (containsDuplicate (extractedUploadDetail raw parse copy) = false →
      extractedUploadDetail raw parse copy ≠ [] →
      uploadToastMessage raw parse copy = extractedUploadDetail raw parse copy) ∧
    (extractedUploadDetail raw parse copy = [] →
      uploadToastMessage raw parse copy = copy.toastGenericDescription) ∧
    (looksLikeJson raw = true → parse = .failure →
      uploadToastMessage raw parse copy = copy.toastGenericDescription) := by
  refine ⟨fun hdup => ?_, fun hdup hne => ?_, fun hempty => ?_, fun hjson hfail => ?_⟩
  · simp [uploadToastMessage, hdup, hdupne]
  · simp [uploadToastMessage, hdup, hne]
  · have h0 : containsDuplicate ([] : List Char) = false := by decide
    simp [uploadToastMessage, hempty, h0]
  · have hextract : extractedUploadDetail raw parse copy =
        copy.toastGenericDescription := by
      simp [extractedUploadDetail, hjson, hfail]
    simp [uploadToastMessage, hextract, hgen]

/-- Witness for C6: a duplicate-fingerprint conflict payload is shown as the
dedicated duplicate toast. -/
theorem upload_error_classification_witness :
    containsDuplicate
        (extractedUploadDetail "{...}".data
          (.parsed ⟨some "Duplicate dataset".data, none, none⟩)
          ⟨"generic".data, "already uploaded".data⟩) = true ∧
      uploadToastMessage "{...}".data
          (.parsed ⟨some "Duplicate dataset".data, none, none⟩)
          ⟨"generic".data, "already uploaded".data⟩ = "already uploaded".data :=
  ⟨by decide,
    (upload_error_classification "{...}".data
        (.parsed ⟨some "Duplicate dataset".data, none, none⟩)
        ⟨"generic".data, "already uploaded".data⟩ (by decide) (by decide)).1
      (by decide)⟩

/-- Claim C2: any candidate statement containing DROP, DELETE, UPDATE, INSERT,
ATTACH, or PRAGMA — in any character case, anywhere in its text — is rejected
with `rejectedStatement` before execution (the engine is never invoked,
whatever it would do), and the database state is unchanged. -/
theorem forbidden_statement_rejected (stmt : List Char)
    (engine : List SandboxRow → List SandboxRow)
    (store : List SandboxRow) (caller : List Char)
    (hverb : ∃ v ∈ ["drop".data, "delete".data, "update".data, "insert".data,
        "attach".data, "pragma".data], containsSeq v (lowerStr stmt) = true) :
    runChatQuery stmt engine store caller = (.rejectedStatement, store) := by
  have hforbidden : containsForbiddenVerb stmt = true := by
    obtain ⟨v, hv, hinf⟩ := hverb
    unfold containsForbiddenVerb
    rw [List.any_eq_true]
    refine ⟨v, ?_, hinf⟩
    fin_cases hv <;> decide
  simp [runChatQuery, hforbidden]

/-- Witness for C2: a mixed-case `DrOp` statement is rejected and leaves the
store untouched even against an engine that would erase everything. -/
theorem forbidden_statement_rejected_witness :
    runChatQuery "SELECT 1; DrOp TABLE t".data (fun _ => [])
        [⟨"alice".data, 0, 1, 1⟩] "alice".data =
      (.rejectedStatement, [⟨"alice".data, 0, 1, 1⟩]) :=
  forbidden_statement_rejected "SELECT 1; DrOp TABLE t".data (fun _ => [])
    [⟨"alice".data, 0, 1, 1⟩] "alice".data ⟨"drop".data, by decide, by decide⟩

/-- Claim C1: every row a chat query returns on behalf of a caller is tagged
with that caller's identity, for any read engine that draws its result rows
from the database it is given — so a query issued for user A never returns a
row tagged for a different user B, even when the planner's SQL omits the
scoping predicate (the engine is arbitrary, including one that selects
everything). -/
theorem chat_query_scoped (stmt : List Char)
    (engine : List SandboxRow → List SandboxRow)
    (store : List SandboxRow) (caller : List Char)
    (result : List SandboxRow) (truncated : Bool) (r : SandboxRow)
    (hengine : ∀ db x, x ∈ engine db → x ∈ db)
    (hrun : (runChatQuery stmt engine store caller).1 = .rows result truncated)
    (hr : r ∈ result) :
    r.user_id = caller ∧
      ∀ other : List Char, other ≠ caller → r.user_id ≠ other := by
  have hmem : r ∈ populateSandbox store caller := by
    by_cases hforbidden : containsForbiddenVerb stmt = true
    · simp [runChatQuery, hforbidden] at hrun
    · simp [runChatQuery, hforbidden] at hrun
      have : r ∈ (engine (populateSandbox store caller)).take sandboxRowLimit := by
        rw [hrun.1]
        exact hr
      exact hengine _ _ ((List.take_sublist _ _).subset this)
  have hid : r.user_id = caller := by
    have := List.of_mem_filter hmem
    simpa using this
  exact ⟨hid, fun other hother => hid ▸ fun h => hother h.symm⟩

/-- Witness for C1: with Alice's and Bob's rows both in the store and an
engine that selects every row of its database, a query for Alice returns only
rows tagged `alice`, never Bob's. -/
theorem chat_query_scoped_witness :
    let aliceRow : SandboxRow := ⟨"alice".data, 10, 2, 3⟩
    let bobRow : SandboxRow := ⟨"bob".data, 11, 4, 5⟩
    aliceRow ∈ [aliceRow] ∧
      (runChatQuery "SELECT * FROM readings".data (fun db => db)
          [aliceRow, bobRow] "alice".data).1 = .rows [aliceRow] false ∧
      aliceRow.user_id = "alice".data ∧
      ∀ other : List Char, other ≠ "alice".data → aliceRow.user_id ≠ other := by
  intro aliceRow bobRow
  have hrun : (runChatQuery "SELECT * FROM readings".data (fun db => db)
      [aliceRow, bobRow] "alice".data).1 = .rows [aliceRow] false := by decide
  have hmain := chat_query_scoped "SELECT * FROM readings".data (fun db => db)
    [aliceRow, bobRow] "alice".data [aliceRow] false aliceRow
    (fun _ _ hx => hx) hrun (by decide)
  exact ⟨by decide, hrun, hmain.1, hmain.2⟩

/-! ## Fingerprint engine (modelled from the spec)

The backend `services/analytics.py` fingerprint computation is not among the
shipped sources; it is modelled from spec §4.4: a stable digest over the
sorted `(date, time-or-null, kwh, cost)` tuples — i.e. over the reading
content up to row order — combined with the user identity as a scoping
component.  Since the spec idealizes the digest as collision-free ("changes if
any tuple differs"), the digest value is modelled as the pair of the user id
and the multiset of tuples (what a sorted canonical serialization determines
exactly). -/

/-- A normalized reading tuple: calendar day as epoch-day integer, optional
time-of-day hour, and the parsed kwh/cost values. -/
structure ReadingTuple where
  date : Int
  time : Option Nat
  kwh : ℚ
  cost : ℚ
deriving DecidableEq

/-- Modelled from the spec (§4.4): the duplicate-detection fingerprint of a
reading set for one user. -/
def fingerprint (userId : List Char) (rows : List ReadingTuple) :
    List Char × Multiset ReadingTuple :=
  (userId, (rows : Multiset ReadingTuple))

/-- Modelled from the spec (§4.1): the Reading Normalizer trims incidental
whitespace around each CSV cell before parsing its value. -/
def normalizeCell (cell : List Char) : List Char := trimChars cell

/-- Modelled from the spec (§4.1): header cells are matched case-insensitively
after trimming. -/
def normalizeHeaderCell (cell : List Char) : List Char := lowerStr (trimChars cell)

/-! ### Character-level normalization lemmas -/

theorem dropWhile_append_all (p : Char → Bool) (l1 l2 : List Char)
    (h : ∀ c ∈ l1, p c = true) :
    (l1 ++ l2).dropWhile p = l2.dropWhile p := by
  induction l1 with
  | nil => simp
  | cons c l ih =>
    simp only [List.cons_append, List.dropWhile_cons, h c (by simp)]
    exact ih (fun x hx => h x (by simp [hx]))

theorem dropWhile_append_of_ne_nil (p : Char → Bool) (l1 l2 : List Char)
    (h : l1.dropWhile p ≠ []) :
    (l1 ++ l2).dropWhile p = l1.dropWhile p ++ l2 := by
  induction l1 with
  | nil => simp at h
  | cons c l ih =>
    by_cases hc : p c = true
    · simp only [List.dropWhile_cons, hc, if_true] at h
      simp only [List.cons_append, List.dropWhile_cons, hc, if_true]
      exact ih h
    · simp only [Bool.not_eq_true] at hc
      simp [List.dropWhile_cons, hc]

theorem trimChars_append_left (l pre : List Char)
    (h : ∀ c ∈ pre, isSpaceChar c = true) :
    trimChars (pre ++ l) = trimChars l := by
  unfold trimChars
  rw [dropWhile_append_all _ _ _ h]

theorem trimChars_append_right (l post : List Char)
    (h : ∀ c ∈ post, isSpaceChar c = true) :
    trimChars (l ++ post) = trimChars l := by
  by_cases hl : l.dropWhile isSpaceChar = []
  · have hall : ∀ c ∈ l, isSpaceChar c = true := by
      intro c hc
      exact List.dropWhile_eq_nil_iff.mp hl c hc
    have hboth : ∀ c ∈ l ++ post, isSpaceChar c = true := by
      intro c hc
      rcases List.mem_append.mp hc with h1 | h2
      · exact hall c h1
      · exact h c h2
    unfold trimChars
    rw [hl, List.dropWhile_eq_nil_iff.mpr hboth]
  · unfold trimChars
    rw [dropWhile_append_of_ne_nil _ _ _ hl, List.reverse_append,
      dropWhile_append_all _ _ _ (fun c hc => h c (List.mem_reverse.mp hc))]

theorem isSpaceChar_lowerChar (c : Char) :
    isSpaceChar (lowerChar c) = isSpaceChar c := by
  unfold lowerChar
  split <;> first | decide | rfl

theorem lowerStr_trimChars (s : List Char) :
    lowerStr (trimChars s) = trimChars (lowerStr s) := by
  have hcomp : isSpaceChar ∘ lowerChar = isSpaceChar := by
    funext c
    exact isSpaceChar_lowerChar c
  unfold trimChars lowerStr
  simp only [List.dropWhile_map, hcomp, List.map_reverse]
  rw [show ((List.dropWhile isSpaceChar s).map lowerChar).reverse =
      (List.dropWhile isSpaceChar s).reverse.map lowerChar from
      (List.map_reverse _ _).symm,
    List.dropWhile_map, hcomp]

/-! ### Claim theorem for C3 -/

/-- Claim C3: the fingerprint digest is invariant under permutation of the
rows; it changes whenever the multiset of `(date, time, kwh, cost)` tuples
differs; the same content fingerprinted for two different user identities
yields two different fingerprints; and the normalization feeding the
fingerprint is invariant under incidental whitespace padding of a cell and
under casing changes of the header text (texts differing only in case have
equal lowercase images). -/
theorem fingerprint_content_invariance (u u1 u2 : List Char)
    (rows rows1 rows2 : List ReadingTuple)
    (cell variantCell pre post : List Char) :
    (rows1.Perm rows2 → fingerprint u rows1 = fingerprint u rows2) ∧
    (fingerprint u rows1 = fingerprint u rows2 → rows1.Perm rows2) ∧
    (u1 ≠ u2 → fingerprint u1 rows ≠ fingerprint u2 rows) ∧
    ((∀ c ∈ pre, isSpaceChar c = true) → (∀ c ∈ post, isSpaceChar c = true) →
      normalizeCell (pre ++ cell ++ post) = normalizeCell cell) ∧
    (lowerStr variantCell = lowerStr cell →
      normalizeHeaderCell variantCell = normalizeHeaderCell cell) := by
  refine ⟨fun hperm => ?_, fun heq => ?_, fun hne heq => ?_,
    fun hpre hpost => ?_, fun hcase => ?_⟩
  · unfold fingerprint
    exact congrArg _ (Multiset.coe_eq_coe.mpr hperm)
  · have : (rows1 : Multiset ReadingTuple) = (rows2 : Multiset ReadingTuple) :=
      congrArg Prod.snd heq
    exact Multiset.coe_eq_coe.mp this
  · exact hne (congrArg Prod.fst heq)
  · unfold normalizeCell
    rw [List.append_assoc, trimChars_append_left _ _ hpre,
      trimChars_append_right _ _ hpost]
  · unfold normalizeHeaderCell
    rw [lowerStr_trimChars, lowerStr_trimChars, hcase]

/-- Witness for C3 at concrete tuples, users and cells. -/
theorem fingerprint_content_invariance_witness :
    fingerprint "u1".data [⟨20178, some 7, 37/2, 59/10⟩, ⟨20178, some 19, 221/10, 81/10⟩] =
        fingerprint "u1".data [⟨20178, some 19, 221/10, 81/10⟩, ⟨20178, some 7, 37/2, 59/10⟩] ∧
      fingerprint "u1".data [⟨20178, some 7, 37/2, 59/10⟩] ≠
        fingerprint "u2".data [⟨20178, some 7, 37/2, 59/10⟩] ∧
      normalizeCell (" ".data ++ "18.5".data ++ "  ".data) = normalizeCell "18.5".data ∧
      normalizeHeaderCell "KWh".data = normalizeHeaderCell "kwh".data :=
  ⟨(fingerprint_content_invariance "u1".data "u1".data "u2".data [] _ _ [] [] [] []).1
      (List.Perm.swap _ _ []),
    (fingerprint_content_invariance "u1".data "u1".data "u2".data
        [⟨20178, some 7, 37/2, 59/10⟩] [] [] [] [] [] []).2.2.1 (by decide),
    (fingerprint_content_invariance "u1".data "u1".data "u2".data [] [] []
        "18.5".data [] " ".data "  ".data).2.2.2.1 (by decide) (by decide),
    (fingerprint_content_invariance "u1".data "u1".data "u2".data [] [] []
        "kwh".data "KWh".data [] []).2.2.2.2 (by decide)⟩

/-! ## Metric aggregator and insight generator (modelled from the spec)

The backend `services/analytics.py` is not among the shipped sources; the
Aggregator (§4.2) and Insight Generator (§4.3) are modelled from the spec,
with record shapes mirroring `SummaryInsights` and friends in
`src/frontend/types/analytics.ts`.  The fixed bucket boundaries and the
CO₂ factor are configuration constants, per spec §9. -/

/-- Mirrors `DailyCostSnapshot` in `src/frontend/types/analytics.ts`. -/
structure DailyCostSnapshot where
  date : Int
  kwh : ℚ
  cost : ℚ
deriving DecidableEq

/-- Mirrors `WeekendWeekdayComparison` in `src/frontend/types/analytics.ts`. -/
structure WeekendWeekdayComparison where
  weekend_avg_cost_per_kwh : ℚ
  weekday_avg_cost_per_kwh : ℚ
  weekend_avg_daily_cost : ℚ
  weekday_avg_daily_cost : ℚ
  weekend_days : Nat
  weekday_days : Nat
deriving DecidableEq

/-- Mirrors `QuarterUsageComparison` in `src/frontend/types/analytics.ts`
(display labels elided). -/
structure QuarterUsageComparison where
  start_kwh : ℚ
  end_kwh : ℚ
  delta_kwh : ℚ
  delta_percent : Option ℚ
deriving DecidableEq

/-- Mirrors `PeakWindowInsight` in `src/frontend/types/analytics.ts`. -/
structure PeakWindowInsight where
  start_hour : Nat
  end_hour : Nat
  avg_kwh_per_day : ℚ
deriving DecidableEq

/-- Mirrors `SummaryInsights` in `src/frontend/types/analytics.ts`:
`weekend_vs_weekday`, `quarter_usage` and `peak_window` are the nullable
fields; the rest are always populated. -/
structure SummaryInsights where
  peak_day : DailyCostSnapshot
  weekend_vs_weekday : Option WeekendWeekdayComparison
  top_expensive_days : List DailyCostSnapshot
  quarter_usage : Option QuarterUsageComparison
  peak_window : Option PeakWindowInsight
  average_cost_per_kwh : ℚ
  shift_kwh : ℚ
  days_covered : Nat
  co2_factor : ℚ
deriving DecidableEq

def totalKwh (rows : List ReadingTuple) : ℚ := (rows.map (·.kwh)).sum

def totalCost (rows : List ReadingTuple) : ℚ := (rows.map (·.cost)).sum

/-- The distinct calendar days present, in first-occurrence order. -/
def datesOf (rows : List ReadingTuple) : List Int := (rows.map (·.date)).dedup

def rowsOn (rows : List ReadingTuple) (d : Int) : List ReadingTuple :=
  rows.filter (fun r => decide (r.date = d))

def dailyKwh (rows : List ReadingTuple) (d : Int) : ℚ := totalKwh (rowsOn rows d)

def dailyCost (rows : List ReadingTuple) (d : Int) : ℚ := totalCost (rowsOn rows d)

def snapshotOf (rows : List ReadingTuple) (d : Int) : DailyCostSnapshot :=
  ⟨d, dailyKwh rows d, dailyCost rows d⟩

/-- Modelled from the spec: ISO-calendar weekend classification of an
epoch-day number (the concrete weekday anchoring is a fixed convention). -/
def isWeekendDay (d : Int) : Bool :=
  decide (d.emod 7 = 5 ∨ d.emod 7 = 6)

/-- Division that reports `0` instead of dividing by zero. -/
def safeDiv (a b : ℚ) : ℚ := if b = 0 then 0 else a / b

def insertSortedInt (x : Int) : List Int → List Int
  | [] => [x]
  | y :: ys => if x ≤ y then x :: y :: ys else y :: insertSortedInt x ys

/-- Ascending insertion sort of day numbers. -/
def sortInts (l : List Int) : List Int := l.foldr insertSortedInt []

def insertByCost (rows : List ReadingTuple) (x : Int) : List Int → List Int
  | [] => [x]
  | y :: ys =>
    if dailyCost rows y < dailyCost rows x ∨
        (dailyCost rows x = dailyCost rows y ∧ x ≤ y) then x :: y :: ys
    else y :: insertByCost rows x ys

/-- Days sorted by total daily cost descending, ties broken by earliest
date (spec §4.3). -/
def sortByCostDesc (rows : List ReadingTuple) (l : List Int) : List Int :=
  l.foldr (insertByCost rows) []

/-- Modelled from the spec (§4.3): the top-K most expensive days, K = 5. -/
def topExpensiveDays (rows : List ReadingTuple) : List DailyCostSnapshot :=
  ((sortByCostDesc rows (datesOf rows)).take 5).map (snapshotOf rows)

/-- Modelled from the spec (§4.2): the day with maximum kwh, ties broken by
the earliest date — `d0 :: ds` is the ascending-sorted day list, and only a
strictly larger day displaces the current best. -/
def pickPeakDay (rows : List ReadingTuple) (d0 : Int) (ds : List Int) : Int :=
  ds.foldl (fun best d => if dailyKwh rows best < dailyKwh rows d then d else best) d0

/-- Modelled from the spec (§4.3): weekend/weekday comparison, `none` unless
both partitions contain at least one day. -/
def weekendComparison (rows : List ReadingTuple) :
    Option WeekendWeekdayComparison :=
  let ds := datesOf rows
  let wend := ds.filter isWeekendDay
  let wday := ds.filter (fun d => !(isWeekendDay d))
  if wend = [] ∨ wday = [] then none
  else
    let wendRows := rows.filter (fun r => isWeekendDay r.date)
    let wdayRows := rows.filter (fun r => !(isWeekendDay r.date))
    some
      { weekend_avg_cost_per_kwh := safeDiv (totalCost wendRows) (totalKwh wendRows)
        weekday_avg_cost_per_kwh := safeDiv (totalCost wdayRows) (totalKwh wdayRows)
        weekend_avg_daily_cost := safeDiv (totalCost wendRows) (wend.length : ℚ)
        weekday_avg_daily_cost := safeDiv (totalCost wdayRows) (wday.length : ℚ)
        weekend_days := wend.length
        weekday_days := wday.length }

/-- The last element of `d :: l`. -/
def lastOf (d : Int) (l : List Int) : Int := l.foldl (fun _ y => y) d

/-- Modelled from the spec (§4.3): quarter-usage delta, splitting the date
range into two halves by elapsed time; requires the dataset to span more than
one day, else `none`; `delta_percent` is `none` when the first half has zero
kwh. -/
def quarterUsage (rows : List ReadingTuple) : Option QuarterUsageComparison :=
  match sortInts (datesOf rows) with
  | [] => none
  | [_] => none
  | d1 :: ds =>
    let dN := lastOf d1 ds
    let mid := (d1 + dN) / 2
    let sk := totalKwh (rows.filter (fun r => decide (r.date ≤ mid)))
    let ek := totalKwh (rows.filter (fun r => decide (mid < r.date)))
    some
      { start_kwh := sk
        end_kwh := ek
        delta_kwh := ek - sk
        delta_percent := if 0 < sk then some ((ek - sk) / sk * 100) else none }

def hoursOf (rows : List ReadingTuple) : List Nat := rows.filterMap (·.time)

/-- Total kwh of readings whose time-of-day lies in the 3-hour window starting
at `h`. -/
def windowKwh (rows : List ReadingTuple) (h : Nat) : ℚ :=
  totalKwh (rows.filter (fun r =>
    match r.time with
    | some t => decide (h ≤ t ∧ t < h + 3)
    | none => false))

/-- Modelled from the spec (§4.3): the contiguous 3-hour window with the
highest kwh, `none` when no reading carries a time-of-day. -/
def peakWindow (rows : List ReadingTuple) : Option PeakWindowInsight :=
  if hoursOf rows = [] then none
  else
    let best := (List.range 22).foldl
      (fun acc h => if acc.2 < windowKwh rows h then (h, windowKwh rows h) else acc)
      (0, windowKwh rows 0)
    some ⟨best.1, best.1 + 3, safeDiv best.2 ((datesOf rows).length : ℚ)⟩

/-- Modelled from the spec (§4.3): heuristic shiftable volume inside the peak
window, `0` when no peak window exists. -/
def shiftKwh (rows : List ReadingTuple) : ℚ :=
  match peakWindow rows with
  | none => 0
  | some w => windowKwh rows w.start_hour * (3 / 10)

/-- Modelled from the spec (§9): the configured CO₂ factor in kg per kwh. -/
def co2Factor : ℚ := 233 / 1000

/-- Modelled from the spec (§4.2–4.3): the full insights record, `none` on an
empty reading sequence (`EmptyDataset` is fatal in §4.1). -/
def computeInsights (rows : List ReadingTuple) : Option SummaryInsights :=
  match sortInts (datesOf rows) with
  | [] => none
  | d0 :: ds =>
    some
      { peak_day := snapshotOf rows (pickPeakDay rows d0 ds)
        weekend_vs_weekday := weekendComparison rows
        top_expensive_days := topExpensiveDays rows
        quarter_usage := quarterUsage rows
        peak_window := peakWindow rows
        average_cost_per_kwh :=
          if 0 < totalKwh rows then totalCost rows / totalKwh rows else 0
        shift_kwh := shiftKwh rows
        days_covered := (datesOf rows).length
        co2_factor := co2Factor }

/-! ### Claim theorems for C4 and C5 -/

/-- Claim C4: in every computed insights record, `average_cost_per_kwh` equals
`total_cost / total_kwh` whenever `total_kwh > 0`, and equals `0` when
`total_kwh = 0`. -/
theorem average_cost_per_kwh_correct (rows : List ReadingTuple)
    (ins : SummaryInsights) (h : computeInsights rows = some ins) :
    (0 < totalKwh rows →
      ins.average_cost_per_kwh = totalCost rows / totalKwh rows) ∧
    (totalKwh rows = 0 → ins.average_cost_per_kwh = 0) := by
  unfold computeInsights at h
  cases hsort : sortInts (datesOf rows) with
  | nil => rw [hsort] at h; simp at h
  | cons d0 ds =>
    rw [hsort] at h
    simp only [Option.some.injEq] at h
    subst h
    constructor
    · intro hpos
      simp [hpos]
    · intro hzero
      simp [hzero]

/-- Witness for C4 at the spec's two-row example dataset
(`18.5 kwh / 5.90` and `22.1 kwh / 8.10` on the same day):
`14 / 40.6 = 70/203`. -/
theorem average_cost_per_kwh_correct_witness :
    (computeInsights
        [⟨20148, some 7, 37/2, 59/10⟩, ⟨20148, some 19, 221/10, 81/10⟩]).map
        (fun i => i.average_cost_per_kwh) =
      some (70 / 203) := by
  cases h : computeInsights
      [⟨20148, some 7, 37/2, 59/10⟩, ⟨20148, some 19, 221/10, 81/10⟩] with
  | none =>
    unfold computeInsights at h
    rw [show sortInts (datesOf
        [⟨20148, some 7, 37/2, 59/10⟩, ⟨20148, some 19, 221/10, 81/10⟩]) =
      [20148] by decide] at h
    simp at h
  | some ins =>
    have h2 := (average_cost_per_kwh_correct _ ins h).1 (by norm_num [totalKwh])
    simp only [Option.map]
    rw [h2]
    norm_num [totalCost, totalKwh]

/-- Claim C5: for a dataset whose readings all fall on exactly one calendar
day, the computed insights have `quarter_usage = none` and
`weekend_vs_weekday = none`, while the record itself is produced and its
non-nullable `peak_day` and `average_cost_per_kwh` fields are populated —
`peak_day` carries that one day and exactly one day is covered. -/
theorem single_day_insights (rows : List ReadingTuple) (d : Int)
    (hne : rows ≠ []) (hall : ∀ r ∈ rows, r.date = d) :
    ∃ ins, computeInsights rows = some ins ∧ ins.quarter_usage = none ∧
      ins.weekend_vs_weekday = none ∧ ins.peak_day.date = d ∧
      ins.days_covered = 1 ∧
      ins.average_cost_per_kwh =
        (if 0 < totalKwh rows then totalCost rows / totalKwh rows else 0) := by
  have hdatemap : ∀ x ∈ rows.map (·.date), x = d := by
    intro x hx
    obtain ⟨r, hr, rfl⟩ := List.mem_map.mp hx
    exact hall r hr
  have hnemap : rows.map (·.date) ≠ [] := by
    simpa using hne
  have hdates : datesOf rows = [d] := by
    unfold datesOf
    generalize hl : rows.map (·.date) = l at hdatemap hnemap
    clear hl hall hne
    induction l with
    | nil => exact absurd rfl hnemap
    | cons x xs ih =>
      have hx : x = d := hdatemap x (by simp)
      subst hx
      cases xs with
      | nil => simp
      | cons y ys =>
        have hy : y = x := (hdatemap y (by simp)).trans
          (hdatemap x (by simp)).symm
        have hmem : x ∈ y :: ys := by
          rw [hy]
          exact List.mem_cons_self x ys
        rw [List.dedup_cons_of_mem hmem]
        exact ih (fun z hz => hdatemap z (by simp [hz])) (by simp)
  have hsort : sortInts (datesOf rows) = [d] := by
    rw [hdates]
    rfl
  have hci : computeInsights rows = some
      { peak_day := snapshotOf rows (pickPeakDay rows d [])
        weekend_vs_weekday := weekendComparison rows
        top_expensive_days := topExpensiveDays rows
        quarter_usage := quarterUsage rows
        peak_window := peakWindow rows
        average_cost_per_kwh :=
          if 0 < totalKwh rows then totalCost rows / totalKwh rows else 0
        shift_kwh := shiftKwh rows
        days_covered := (datesOf rows).length
        co2_factor := co2Factor } := by
    unfold computeInsights
    rw [hsort]
  refine ⟨_, hci, ?_, ?_, rfl, ?_, rfl⟩
  · show quarterUsage rows = none
    unfold quarterUsage
    rw [hsort]
  · show weekendComparison rows = none
    unfold weekendComparison
    rw [hdates]
    cases hwd : isWeekendDay d <;> simp [hwd]
  · show (datesOf rows).length = 1
    rw [hdates]
    rfl

/-- Witness for C5 at a concrete single-day dataset. -/
theorem single_day_insights_witness :
    (computeInsights
        [⟨20148, some 7, 37/2, 59/10⟩, ⟨20148, some 19, 221/10, 81/10⟩]).map
        (fun i => (i.quarter_usage, i.weekend_vs_weekday, i.peak_day.date,
          i.days_covered)) =
      some (none, none, 20148, 1) := by
  obtain ⟨ins, h1, h2, h3, h4, h5, _⟩ :=
    single_day_insights
      [⟨20148, some 7, 37/2, 59/10⟩, ⟨20148, some 19, 221/10, 81/10⟩] 20148
      (by decide) (by decide)
  rw [h1]
  simp only [Option.map]
  rw [h2, h3, h4, h5]

/-! ## Summary builder (modelled from the spec) and the recommendations
rendering (src/frontend/components/ai-recommendations.tsx) -/

/-- Mirrors `StatCardData.change_type` in `src/frontend/types/analytics.ts`. -/
inductive ChangeType where
  | increase
  | decrease
  | neutral
deriving DecidableEq

/-- Mirrors `StatCardData` (display strings for change/trend elided; absent a
prior dataset the change is neutral, per spec §4.2). -/
structure StatCardData where
  title : List Char
  value : ℚ
  unit : List Char
  change_type : ChangeType
deriving DecidableEq

/-- Mirrors `UsagePoint` in `src/frontend/types/analytics.ts`. -/
structure UsagePoint where
  date : Int
  kwh : ℚ
deriving DecidableEq

/-- Mirrors `CostSegment` in `src/frontend/types/analytics.ts`. -/
structure CostSegment where
  segment : List Char
  value : ℚ
deriving DecidableEq

/-- Mirrors `SummaryBadge` (numeric badge value; display formatting is
external). -/
structure SummaryBadge where
  label : List Char
  value : ℚ
deriving DecidableEq

/-- Mirrors `Recommendation` in `src/frontend/types/analytics.ts` (localized
content elided down to the category, impact and tips the claims touch). -/
structure Recommendation where
  category : List Char
  impact_value : List Char
  tips : List (List Char)
deriving DecidableEq

/-- Mirrors `AnalyticsSummary` in `src/frontend/types/analytics.ts`. -/
structure AnalyticsSummary where
  stats : List StatCardData
  usage : List UsagePoint
  cost_breakdown : List CostSegment
  badges : List SummaryBadge
  recommendations : List Recommendation
  insights : Option SummaryInsights
deriving DecidableEq

/-- Modelled from the spec (§4.2): the daily usage series, one point per
distinct date, ordered by date ascending. -/
def usageSeries (rows : List ReadingTuple) : List UsagePoint :=
  (sortInts (datesOf rows)).map (fun d => ⟨d, dailyKwh rows d⟩)

/-- Modelled from the spec (§4.2): a reading's classifying hour — its
time-of-day when present, else a fixed inferred default. -/
def hourOfReading (r : ReadingTuple) : Nat := r.time.getD 12

/-- Modelled from the spec (§4.2): whether a reading falls in the fixed
peak-hours range of the cost-breakdown policy. -/
def inPeakHours (r : ReadingTuple) : Bool :=
  decide (17 ≤ hourOfReading r ∧ hourOfReading r < 21)

/-- Modelled from the spec (§4.2): cost-breakdown segmentation into the
peak / off-peak / weekend buckets; bucket assignment is total and mutually
exclusive (weekend wins, then the hour range splits the weekdays). -/
def costBreakdown (rows : List ReadingTuple) : List CostSegment :=
  [⟨"peak".data,
      totalCost (rows.filter (fun r => !(isWeekendDay r.date) && inPeakHours r))⟩,
    ⟨"offpeak".data,
      totalCost (rows.filter (fun r => !(isWeekendDay r.date) && !(inPeakHours r)))⟩,
    ⟨"weekend".data, totalCost (rows.filter (fun r => isWeekendDay r.date))⟩]

/-- Modelled from the spec (§4.2/§6): the stat cards for totals, cost and
CO₂. -/
def statsOf (rows : List ReadingTuple) : List StatCardData :=
  [⟨"total_kwh".data, totalKwh rows, "kWh".data, .neutral⟩,
    ⟨"total_cost".data, totalCost rows, "EUR".data, .neutral⟩,
    ⟨"total_co2".data, totalKwh rows * co2Factor, "kg".data, .neutral⟩]

/-- Modelled from the spec (§6): summary badges derived from the dataset. -/
def badgesOf (rows : List ReadingTuple) : List SummaryBadge :=
  [⟨"days_covered".data, ((datesOf rows).length : ℚ)⟩,
    ⟨"row_count".data, (rows.length : ℚ)⟩]

/-- Modelled from the spec (§4.2–4.4, §6, §7): the upload-path Summary.
`providerRecommendations` is the text-generation collaborator's output;
total unavailability is `none` and degrades to an empty recommendations list
without affecting any other field.  The metric computation succeeds whenever
the reading parse succeeded (a non-empty reading sequence). -/
def buildSummary (rows : List ReadingTuple)
    (providerRecommendations : Option (List Recommendation)) :
    Option AnalyticsSummary :=
  if rows = [] then none
  else
    some
      { stats := statsOf rows
        usage := usageSeries rows
        cost_breakdown := costBreakdown rows
        badges := badgesOf rows
        recommendations := providerRecommendations.getD []
        insights := computeInsights rows }

/-- The rendering outcome of the `AIRecommendations` component's body:
either the neutral empty-recommendations notice or the grid of cards. -/
inductive RecommendationsView where
  | emptyNotice
  | cards (recs : List Recommendation)
deriving DecidableEq

/-- Embedding of the `recommendations.length === 0` branch of
`src/frontend/components/ai-recommendations.tsx`. -/
def recommendationsView (summary : AnalyticsSummary) : RecommendationsView :=
  if summary.recommendations = [] then .emptyNotice
  else .cards summary.recommendations

/-- Embedding of the badges row of `AIRecommendations`, rendered in the card
header regardless of the recommendations list. -/
def renderedBadges (summary : AnalyticsSummary) : List SummaryBadge :=
  summary.badges

/-! ### Claim theorem for C8 -/

/-- Claim C8: when the text-generation provider is unavailable, the summary is
still produced with an empty recommendations list, the component renders the
neutral empty-recommendations notice (with the badges still rendered), and
every other part of the summary — stats, usage, cost breakdown, badges,
insights — is exactly what it would be with any available provider; the
computation never fails on a non-empty dataset. -/
theorem provider_unavailable_degrades (rows : List ReadingTuple)
    (recs : List Recommendation) (hne : rows ≠ []) :
    ∃ s0, buildSummary rows none = some s0 ∧ s0.recommendations = [] ∧
      recommendationsView s0 = .emptyNotice ∧
      renderedBadges s0 = badgesOf rows ∧
      ∀ s1, buildSummary rows (some recs) = some s1 →
        s0.stats = s1.stats ∧ s0.usage = s1.usage ∧
        s0.cost_breakdown = s1.cost_breakdown ∧ s0.badges = s1.badges ∧
        s0.insights = s1.insights := by
  refine ⟨⟨statsOf rows, usageSeries rows, costBreakdown rows, badgesOf rows,
    [], computeInsights rows⟩, ?_, rfl, rfl, rfl, ?_⟩
  · simp [buildSummary, hne]
  · intro s1 h1
    simp only [buildSummary, if_neg hne, Option.some.injEq] at h1
    rw [← h1]
    exact ⟨rfl, rfl, rfl, rfl, rfl⟩

/-- Witness for C8 at a concrete one-row dataset. -/
theorem provider_unavailable_degrades_witness :
    (buildSummary [⟨20148, some 7, 37/2, 59/10⟩] none).map
        (fun s => (s.recommendations, recommendationsView s, renderedBadges s)) =
      some ([], .emptyNotice,
        badgesOf [⟨20148, some 7, 37/2, 59/10⟩]) := by
  obtain ⟨s0, h1, h2, h3, h4, _⟩ :=
    provider_unavailable_degrades [⟨20148, some 7, 37/2, 59/10⟩] [] (by decide)
  rw [h1]
  simp only [Option.map]
  rw [h2, h3, h4]

/-! ## CSV report export (src/frontend/app/analytics/page.tsx)

`escapeCsvValue` replaces every newline (`\r\n`, `\n` or `\r`) with a single
space, trims, doubles every double quote, and wraps the field in double quotes
exactly when the escaped text contains a comma, double quote or semicolon;
`csvLine` joins fields with commas; `buildReportCsv` joins its record lines
with `\r\n`.  A record parser following standard CSV quoting rules (RFC 4180)
is defined to state the round-trip. -/

/-- Embedding of `String(value).replace(/\r?\n|\r/g, " ")`: each newline
occurrence becomes one space. -/
def collapseNewlines : List Char → List Char
  | [] => []
  | '\r' :: '\n' :: rest => ' ' :: collapseNewlines rest
  | '\n' :: rest => ' ' :: collapseNewlines rest
  | '\r' :: rest => ' ' :: collapseNewlines rest
  | c :: rest => c :: collapseNewlines rest

/-- Embedding of `.replace(/"/g, '""')`: every double quote is doubled. -/
def escapeQuotes : List Char → List Char
  | [] => []
  | c :: rest =>
    if c = '"' then '"' :: '"' :: escapeQuotes rest else c :: escapeQuotes rest

/-- Embedding of `/[,";]/.test(escaped)`. -/
def needsCsvQuoting (l : List Char) : Bool :=
  l.any (fun c => c = ',' ∨ c = '"' ∨ c = ';')

/-- The newline-collapsed, trimmed field text (`text` in `escapeCsvValue`). -/
def cleanCsvText (v : List Char) : List Char := trimChars (collapseNewlines v)

/-- Embedding of `escapeCsvValue` from `src/frontend/app/analytics/page.tsx`. -/
def escapeCsvValue (v : List Char) : List Char :=
  let text := cleanCsvText v
  if text = [] then []
  else
    let escaped := escapeQuotes text
    if needsCsvQuoting escaped then '"' :: (escaped ++ ['"']) else escaped

/-- Embedding of `csvLine(...values)`: the escaped fields joined with `,`. -/
def csvLine : List (List Char) → List Char
  | [] => []
  | [v] => escapeCsvValue v
  | v :: vs => escapeCsvValue v ++ ',' :: csvLine vs

/-- Embedding of `lines.join("\r\n")` in `buildReportCsv`: the record lines
joined with CRLF. -/
def buildReportCsvText : List (List Char) → List Char
  | [] => []
  | [r] => r
  | r :: rs => r ++ '\r' :: '\n' :: buildReportCsvText rs

/-- RFC 4180 quoted-field body parser: consumes up to the closing quote,
reading `""` as a literal quote; returns the field content and the remaining
input after the closing quote. -/
def parseQuotedBody : List Char → List Char × List Char
  | [] => ([], [])
  | c :: rest =>
    if c = '"' then
      if rest.headD 'x' = '"' then
        let p := parseQuotedBody rest.tail
        ('"' :: p.1, p.2)
      else ([], rest)
    else
      let p := parseQuotedBody rest
      (c :: p.1, p.2)
termination_by l => l.length
decreasing_by
  all_goals simp [List.length_tail]
  all_goals omega

/-- RFC 4180 field parser: a field starting with `"` is a quoted field;
otherwise the field extends to the next comma. -/
def parseField (l : List Char) : List Char × List Char :=
  match l with
  | [] => ([], [])
  | c :: rest =>
    if c = '"' then parseQuotedBody rest
    else (l.takeWhile (fun x => decide (x ≠ ',')),
      l.dropWhile (fun x => decide (x ≠ ',')))

theorem parseQuotedBody_rest_length (l : List Char) :
    (parseQuotedBody l).2.length ≤ l.length := by
  induction l using parseQuotedBody.induct
  all_goals simp only [parseQuotedBody, *, if_pos, if_neg, List.length_cons]
  all_goals simp_all [List.length_tail]
  all_goals omega

theorem mem_of_mem_dropWhile (p : Char → Bool) (c : Char) (l : List Char)
    (h : c ∈ l.dropWhile p) : c ∈ l := by
  induction l with
  | nil => simpa using h
  | cons a t ih =>
    rw [List.dropWhile_cons] at h
    by_cases ha : p a = true
    · simp only [ha, if_true] at h
      exact List.mem_cons_of_mem a (ih h)
    · simp only [ha, if_false] at h
      exact h

theorem dropWhile_length_le (p : Char → Bool) (l : List Char) :
    (l.dropWhile p).length ≤ l.length := by
  induction l with
  | nil => simp
  | cons a t ih =>
    rw [List.dropWhile_cons]
    by_cases ha : p a = true <;> simp [ha] <;> omega

theorem parseField_rest_length (l : List Char) :
    (parseField l).2.length ≤ l.length := by
  unfold parseField
  match l with
  | [] => simp
  | c :: rest =>
    by_cases hc : c = '"'
    · simp only [hc, if_pos rfl]
      exact le_trans (parseQuotedBody_rest_length rest) (by simp)
    · simp only [hc, if_neg, if_false]
      exact dropWhile_length_le _ _

/-- RFC 4180 single-record parser: fields separated by commas. -/
def parseRecord (l : List Char) : List (List Char) :=
  if h : (parseField l).2.headD 'x' = ',' then
    (parseField l).1 :: parseRecord ((parseField l).2.tail)
  else [(parseField l).1]
termination_by l.length
decreasing_by
  have hle := parseField_rest_length l
  cases hrest : (parseField l).2 with
  | nil =>
    rw [hrest] at h
    exact absurd h (by decide)
  | cons a t =>
    rw [hrest] at hle
    simp only [List.length_cons, List.tail_cons] at hle ⊢
    omega

/-! ### Round-trip lemmas -/

theorem escapeQuotes_cons_quote (rest : List Char) :
    escapeQuotes ('"' :: rest) = '"' :: '"' :: escapeQuotes rest := by
  simp [escapeQuotes]

theorem escapeQuotes_cons_other (a : Char) (rest : List Char) (ha : ¬(a = '"')) :
    escapeQuotes (a :: rest) = a :: escapeQuotes rest := by
  simp [escapeQuotes, ha]

theorem escapeQuotes_of_no_quote (t : List Char) (h : ∀ c ∈ t, c ≠ '"') :
    escapeQuotes t = t := by
  induction t with
  | nil => rfl
  | cons c rest ih =>
    rw [escapeQuotes_cons_other c rest (h c (List.mem_cons_self c rest)),
      ih (fun x hx => h x (List.mem_cons_of_mem c hx))]

theorem mem_escapeQuotes (t : List Char) (c : Char) (h : c ∈ escapeQuotes t) :
    c = '"' ∨ c ∈ t := by
  induction t with
  | nil => simp [escapeQuotes] at h
  | cons a rest ih =>
    by_cases ha : a = '"'
    · subst ha
      rw [escapeQuotes_cons_quote, List.mem_cons, List.mem_cons] at h
      rcases h with h1 | h1 | h1
      · exact Or.inl h1
      · exact Or.inl h1
      · rcases ih h1 with h2 | h2
        · exact Or.inl h2
        · exact Or.inr (List.mem_cons_of_mem _ h2)
    · rw [escapeQuotes_cons_other a rest ha, List.mem_cons] at h
      rcases h with h1 | h1
      · exact Or.inr (h1 ▸ List.mem_cons_self _ _)
      · rcases ih h1 with h2 | h2
        · exact Or.inl h2
        · exact Or.inr (List.mem_cons_of_mem _ h2)

theorem mem_of_mem_escapeQuotes_of_mem (t : List Char) (c : Char) (h : c ∈ t) :
    c ∈ escapeQuotes t := by
  induction t with
  | nil => simp at h
  | cons a rest ih =>
    by_cases ha : a = '"'
    · subst ha
      rw [escapeQuotes_cons_quote]
      rcases List.mem_cons.mp h with rfl | hmem
      · simp
      · simp [ih hmem]
    · rw [escapeQuotes_cons_other a rest ha]
      rcases List.mem_cons.mp h with rfl | hmem
      · simp
      · simp [ih hmem]

theorem parseQuotedBody_cons (c : Char) (rest : List Char) :
    parseQuotedBody (c :: rest) =
      if c = '"' then
        if rest.headD 'x' = '"' then
          ('"' :: (parseQuotedBody rest.tail).1, (parseQuotedBody rest.tail).2)
        else ([], rest)
      else ((c :: (parseQuotedBody rest).1), (parseQuotedBody rest).2) := by
  rw [parseQuotedBody.eq_def]

theorem parseQuotedBody_escaped (t rest : List Char)
    (hrest : rest = [] ∨ ∃ r, rest = ',' :: r) :
    parseQuotedBody (escapeQuotes t ++ '"' :: rest) = (t, rest) := by
  induction t with
  | nil =>
    have hhead : ¬(rest.headD 'x' = '"') := by
      rcases hrest with rfl | ⟨r, rfl⟩
      · decide
      · rw [List.headD_cons]
        decide
    show parseQuotedBody (escapeQuotes [] ++ '"' :: rest) = ([], rest)
    rw [show escapeQuotes [] = [] from rfl, List.nil_append, parseQuotedBody_cons,
      if_pos rfl, if_neg hhead]
  | cons c t' ih =>
    by_cases hc : c = '"'
    · subst hc
      rw [escapeQuotes_cons_quote, List.cons_append, List.cons_append,
        parseQuotedBody_cons, if_pos rfl, List.headD_cons, if_pos rfl,
        List.tail_cons, ih]
    · rw [escapeQuotes_cons_other c t' hc, List.cons_append,
        parseQuotedBody_cons, if_neg hc, ih]

theorem takeWhile_dropWhile_sep (e rest : List Char) (he : ∀ c ∈ e, c ≠ ',')
    (hrest : rest = [] ∨ ∃ r, rest = ',' :: r) :
    (e ++ rest).takeWhile (fun x => decide (x ≠ ',')) = e ∧
      (e ++ rest).dropWhile (fun x => decide (x ≠ ',')) = rest := by
  induction e with
  | nil =>
    rcases hrest with rfl | ⟨r, rfl⟩
    · exact ⟨rfl, rfl⟩
    · constructor <;> simp [List.takeWhile_cons, List.dropWhile_cons]
  | cons c e' ih =>
    have hc : c ≠ ',' := he c (List.mem_cons_self c e')
    have hpc : (fun x => decide (x ≠ ',')) c = true := by simp [hc]
    have ih2 := ih (fun x hx => he x (List.mem_cons_of_mem c hx))
    constructor
    · simp only [List.cons_append, List.takeWhile_cons, hpc, if_true]
      rw [ih2.1]
    · simp only [List.cons_append, List.dropWhile_cons, hpc, if_true]
      exact ih2.2

theorem parseField_cons (c : Char) (rest : List Char) :
    parseField (c :: rest) =
      if c = '"' then parseQuotedBody rest
      else ((c :: rest).takeWhile (fun x => decide (x ≠ ',')),
        (c :: rest).dropWhile (fun x => decide (x ≠ ','))) := rfl

theorem parseField_escaped_core (text rest : List Char)
    (hrest : rest = [] ∨ ∃ r, rest = ',' :: r) :
    parseField ((if text = [] then []
        else if needsCsvQuoting (escapeQuotes text) then
          '"' :: (escapeQuotes text ++ ['"'])
        else escapeQuotes text) ++ rest) = (text, rest) := by
  by_cases htext : text = []
  · subst htext
    rw [if_pos rfl, List.nil_append]
    rcases hrest with rfl | ⟨r, rfl⟩
    · rfl
    · rw [parseField_cons, if_neg (show ¬(',' = '"') by decide)]
      simp
  · rw [if_neg htext]
    by_cases hq : needsCsvQuoting (escapeQuotes text) = true
    · rw [if_pos hq, List.cons_append, List.append_assoc, List.singleton_append,
        parseField_cons, if_pos rfl]
      exact parseQuotedBody_escaped text rest hrest
    · rw [if_neg hq]
      have hnoquote : ∀ c ∈ text, c ≠ '"' := by
        intro c hc hcq
        apply hq
        unfold needsCsvQuoting
        rw [List.any_eq_true]
        exact ⟨'"', mem_of_mem_escapeQuotes_of_mem text '"' (hcq ▸ hc), by decide⟩
      have hesc : escapeQuotes text = text := escapeQuotes_of_no_quote text hnoquote
      rw [hesc]
      have hnocomma : ∀ c ∈ text, c ≠ ',' := by
        intro c hc hceq
        apply hq
        unfold needsCsvQuoting
        rw [List.any_eq_true]
        refine ⟨c, ?_, by simp [hceq]⟩
        rw [hesc]
        exact hc
      obtain ⟨t0, t', rfl⟩ := List.exists_cons_of_ne_nil htext
      have ht0 : ¬(t0 = '"') := hnoquote t0 (List.mem_cons_self _ _)
      have htd := takeWhile_dropWhile_sep (t0 :: t') rest hnocomma hrest
      rw [List.cons_append] at htd ⊢
      rw [parseField_cons, if_neg ht0, htd.1, htd.2]

theorem parseField_escaped (v rest : List Char)
    (hrest : rest = [] ∨ ∃ r, rest = ',' :: r) :
    parseField (escapeCsvValue v ++ rest) = (cleanCsvText v, rest) := by
  have he : escapeCsvValue v =
      (if cleanCsvText v = [] then []
        else if needsCsvQuoting (escapeQuotes (cleanCsvText v)) then
          '"' :: (escapeQuotes (cleanCsvText v) ++ ['"'])
        else escapeQuotes (cleanCsvText v)) := rfl
  rw [he]
  exact parseField_escaped_core (cleanCsvText v) rest hrest

theorem parseRecord_unfold (l : List Char) :
    parseRecord l =
      if (parseField l).2.headD 'x' = ',' then
        (parseField l).1 :: parseRecord ((parseField l).2.tail)
      else [(parseField l).1] := by
  rw [parseRecord.eq_def, dite_eq_ite]

/-- Per-record round trip: parsing the emitted record under RFC 4180 quoting
recovers the newline-collapsed, trimmed field values in their original
order, for a non-empty field list. -/
theorem parseRecord_csvLine (values : List (List Char)) (hne : values ≠ []) :
    parseRecord (csvLine values) = values.map cleanCsvText := by
  induction values with
  | nil => exact absurd rfl hne
  | cons v vs ih =>
    cases vs with
    | nil =>
      rw [show csvLine [v] = escapeCsvValue v from rfl]
      have hpf : parseField (escapeCsvValue v) = (cleanCsvText v, []) := by
        have h0 := parseField_escaped v [] (Or.inl rfl)
        rwa [List.append_nil] at h0
      rw [parseRecord_unfold, hpf]
      dsimp only
      rw [if_neg (show ¬(([] : List Char).headD 'x' = ',') by decide)]
      rfl
    | cons v2 vs' =>
      rw [show csvLine (v :: v2 :: vs') =
        escapeCsvValue v ++ ',' :: csvLine (v2 :: vs') from rfl]
      have hpf := parseField_escaped v (',' :: csvLine (v2 :: vs'))
        (Or.inr ⟨_, rfl⟩)
      rw [parseRecord_unfold, hpf]
      dsimp only
      rw [if_pos List.headD_cons, List.tail_cons, ih (by simp)]
      rfl

theorem collapseNewlines_no_newline (l : List Char) :
    ∀ c ∈ collapseNewlines l, ¬(c = '\r') ∧ ¬(c = '\n') := by
  induction l using collapseNewlines.induct with
  | case1 =>
    intro c hc
    simp [collapseNewlines] at hc
  | case2 rest ih =>
    intro c hc
    rw [show collapseNewlines ('\r' :: '\n' :: rest) =
      ' ' :: collapseNewlines rest from rfl] at hc
    rcases List.mem_cons.mp hc with rfl | h2
    · exact ⟨by decide, by decide⟩
    · exact ih c h2
  | case3 rest ih =>
    intro c hc
    rw [show collapseNewlines ('\n' :: rest) =
      ' ' :: collapseNewlines rest from rfl] at hc
    rcases List.mem_cons.mp hc with rfl | h2
    · exact ⟨by decide, by decide⟩
    · exact ih c h2
  | case4 rest hx ih =>
    intro c hc
    rw [collapseNewlines.eq_4 rest hx] at hc
    rcases List.mem_cons.mp hc with rfl | h2
    · exact ⟨by decide, by decide⟩
    · exact ih c h2
  | case5 c0 rest hx1 hx2 hx3 ih =>
    intro c hc
    rw [collapseNewlines.eq_5 c0 rest hx1 hx2 hx3] at hc
    rcases List.mem_cons.mp hc with rfl | h2
    · exact ⟨fun h => hx3 h, fun h => hx2 h⟩
    · exact ih c h2

theorem mem_trimChars (c : Char) (l : List Char) (h : c ∈ trimChars l) :
    c ∈ l := by
  unfold trimChars at h
  rw [List.mem_reverse] at h
  have h2 := mem_of_mem_dropWhile _ _ _ h
  rw [List.mem_reverse] at h2
  exact mem_of_mem_dropWhile _ _ _ h2

theorem mem_escapeCsvValue (v : List Char) (c : Char)
    (h : c ∈ escapeCsvValue v) : c = '"' ∨ c ∈ cleanCsvText v := by
  have he : escapeCsvValue v =
      (if cleanCsvText v = [] then []
        else if needsCsvQuoting (escapeQuotes (cleanCsvText v)) then
          '"' :: (escapeQuotes (cleanCsvText v) ++ ['"'])
        else escapeQuotes (cleanCsvText v)) := rfl
  rw [he] at h
  by_cases h1 : cleanCsvText v = []
  · rw [if_pos h1] at h
    simp at h
  · rw [if_neg h1] at h
    by_cases h2 : needsCsvQuoting (escapeQuotes (cleanCsvText v)) = true
    · rw [if_pos h2] at h
      rcases List.mem_cons.mp h with rfl | h3
      · exact Or.inl rfl
      · rcases List.mem_append.mp h3 with h4 | h4
        · exact mem_escapeQuotes _ _ h4
        · simp only [List.mem_singleton] at h4
          exact Or.inl h4
    · rw [if_neg h2] at h
      exact mem_escapeQuotes _ _ h

theorem csvLine_no_cr (values : List (List Char)) (c : Char)
    (h : c ∈ csvLine values) : ¬(c = '\r') := by
  induction values with
  | nil => simp [csvLine] at h
  | cons v vs ih =>
    cases vs with
    | nil =>
      rw [show csvLine [v] = escapeCsvValue v from rfl] at h
      intro hc
      subst hc
      rcases mem_escapeCsvValue v _ h with h1 | h1
      · exact absurd h1 (by decide)
      · exact (collapseNewlines_no_newline v _ (mem_trimChars _ _ h1)).1 rfl
    | cons v2 vs' =>
      rw [show csvLine (v :: v2 :: vs') =
        escapeCsvValue v ++ ',' :: csvLine (v2 :: vs') from rfl] at h
      rcases List.mem_append.mp h with h1 | h1
      · intro hc
        subst hc
        rcases mem_escapeCsvValue v _ h1 with h2 | h2
        · exact absurd h2 (by decide)
        · exact (collapseNewlines_no_newline v _ (mem_trimChars _ _ h2)).1 rfl
      · rcases List.mem_cons.mp h1 with rfl | h2
        · decide
        · exact ih h2

/-- Splitter for the whole exported document: records separated by CRLF. -/
def splitRecords : List Char → List (List Char)
  | [] => [[]]
  | c :: rest =>
    if c = '\r' ∧ rest.headD 'x' = '\n' then [] :: splitRecords rest.tail
    else (c :: (splitRecords rest).headD []) :: (splitRecords rest).tail
termination_by l => l.length
decreasing_by
  all_goals simp [List.length_tail]
  all_goals omega

theorem splitRecords_cons (c : Char) (rest : List Char) :
    splitRecords (c :: rest) =
      if c = '\r' ∧ rest.headD 'x' = '\n' then [] :: splitRecords rest.tail
      else (c :: (splitRecords rest).headD []) :: (splitRecords rest).tail := by
  rw [splitRecords.eq_def]

theorem splitRecords_nil : splitRecords [] = [[]] := by
  rw [splitRecords.eq_def]

theorem splitRecords_no_cr (r : List Char) (hno : ∀ c ∈ r, ¬(c = '\r')) :
    splitRecords r = [r] := by
  induction r with
  | nil => exact splitRecords_nil
  | cons c r' ih =>
    have hc : ¬(c = '\r') := hno c (List.mem_cons_self _ _)
    rw [splitRecords_cons, if_neg (fun h => hc h.1),
      ih (fun x hx => hno x (List.mem_cons_of_mem _ hx))]
    rfl

theorem splitRecords_append_crlf (r rest : List Char)
    (hno : ∀ c ∈ r, ¬(c = '\r')) :
    splitRecords (r ++ '\r' :: '\n' :: rest) = r :: splitRecords rest := by
  induction r with
  | nil =>
    rw [List.nil_append, splitRecords_cons, if_pos ⟨rfl, List.headD_cons⟩,
      List.tail_cons]
  | cons c r' ih =>
    have hc : ¬(c = '\r') := hno c (List.mem_cons_self _ _)
    rw [List.cons_append, splitRecords_cons, if_neg (fun h => hc h.1),
      ih (fun x hx => hno x (List.mem_cons_of_mem _ hx))]
    rfl

theorem splitRecords_buildReport (records : List (List Char))
    (hne : records ≠ []) (hno : ∀ r ∈ records, ∀ c ∈ r, ¬(c = '\r')) :
    splitRecords (buildReportCsvText records) = records := by
  induction records with
  | nil => exact absurd rfl hne
  | cons r rs ih =>
    cases rs with
    | nil =>
      rw [show buildReportCsvText [r] = r from rfl]
      exact splitRecords_no_cr r (hno r (List.mem_cons_self _ _))
    | cons r2 rs' =>
      rw [show buildReportCsvText (r :: r2 :: rs') =
        r ++ '\r' :: '\n' :: buildReportCsvText (r2 :: rs') from rfl]
      rw [splitRecords_append_crlf r _ (hno r (List.mem_cons_self _ _))]
      rw [ih (by simp) (fun x hx => hno x (List.mem_cons_of_mem _ hx))]

/-! ### Claim theorem for C9 (corrected to non-empty field lists) -/

/-- Claim C9 (amended): for every NON-EMPTY finite list of field values,
parsing the record emitted by `csvLine`/`escapeCsvValue` under standard CSV
quoting rules recovers the trimmed, newline-collapsed field values in their
original order; and the full report, which joins the emitted record lines
with CRLF terminators, splits back into exactly those record lines.  (For the
empty field list the claim as stated fails: `csvLine` emits the empty string,
which standard CSV parsing reads as one empty field — see the
counterexample.) -/
theorem csv_export_roundtrip (values : List (List Char))
    (lines : List (List (List Char)))
    (hvalues : values ≠ []) (hlines : lines ≠ [])
    (hlines2 : ∀ vs ∈ lines, vs ≠ []) :
    parseRecord (csvLine values) = values.map cleanCsvText ∧
    (splitRecords (buildReportCsvText (lines.map csvLine))).map parseRecord =
      lines.map (fun vs => vs.map cleanCsvText) := by
  refine ⟨parseRecord_csvLine values hvalues, ?_⟩
  rw [splitRecords_buildReport (lines.map csvLine) (by simpa using hlines)
    (fun r hr c hc => by
      obtain ⟨vs, hvs, rfl⟩ := List.mem_map.mp hr
      exact csvLine_no_cr vs c hc)]
  rw [List.map_map]
  refine List.map_congr_left ?_
  intro vs hvs
  exact parseRecord_csvLine vs (hlines2 vs hvs)

/-- Witness for C9 at concrete fields exercising trimming, comma-quoting and
quote-doubling. -/
theorem csv_export_roundtrip_witness :
    parseRecord (csvLine [" a ".data, "b,c".data]) =
        [" a ".data, "b,c".data].map cleanCsvText ∧
      (splitRecords (buildReportCsvText
          ([[" a ".data, "b,c".data], ["x\"y".data]].map csvLine))).map
          parseRecord =
        [[" a ".data, "b,c".data], ["x\"y".data]].map
          (fun vs => vs.map cleanCsvText) :=
  csv_export_roundtrip [" a ".data, "b,c".data]
    [[" a ".data, "b,c".data], ["x\"y".data]] (by decide) (by decide)
    (by decide)

/-- Counterexample for C9 as stated: at the empty field list, `csvLine` emits
the empty record, which parses back as one empty field rather than zero
fields; moreover the emission collides with a one-field list whose value
cleans to empty, so no parser can recover both. -/
theorem csv_roundtrip_counterexample :
    parseRecord (csvLine []) ≠ ([] : List (List Char)).map cleanCsvText ∧
      csvLine [] = csvLine [" ".data] := by
  constructor
  · rw [show csvLine [] = ([] : List Char) from rfl, parseRecord_unfold,
      show parseField [] = (([] : List Char), ([] : List Char)) from rfl]
    dsimp only
    rw [if_neg (show ¬(([] : List Char).headD 'x' = ',') by decide)]
    simp
  · decide

end TheEnergy
